import Mathlib

/-!
# go-rundeck: user operations of the API client and the ACL policy listing command

A shallow embedding of `pkg/rundeck/user.go` and
`cmd/rundeck/cmds/list_system_acl_policies.go`.

Go functions returning `(T, error)` are embedded as functions returning a pair
`Option T × Option GoError`, where `none` in the first component is Go's `nil`
slice or pointer and `none` in the second is the `nil` error.  The HTTP
transport is embedded by explicit state passing: every method takes the history
of calls made to `httpGet` and `httpPost` so far and returns the extended one.
-/

namespace Rundeck

/-! ## Values -/

/-- The type `[]byte`. -/
abbrev Bytes := List UInt8

/-- Go error values.  `errorString` is what `errors.New` returns,
`UnmarshalError` is `&UnmarshalError{msg: ...}`, `multierror` is a
`*multierror.Error` holding its `Errors`, and `foreign` is any other error,
given by the name of its dynamic type and its message. -/
inductive GoError where
  | errorString (s : String)
  | UnmarshalError (msg : String)
  | multierror (Errors : List GoError)
  | foreign (type : String) (msg : String)

/-- The type `time.Time`, as seconds and nanoseconds counted from
January 1, year 1, 00:00:00 UTC; the zero value of the Go type is that instant. -/
structure Time where
  sec : Int
  nsec : Nat
  deriving DecidableEq, Repr

/-- The zero value `time.Time{}`. -/
def Time.zero : Time := { sec := 0, nsec := 0 }

/-- The struct `User` of `user.go`. -/
structure User where
  Login : String
  FirstName : String
  LastName : String
  Email : String
  Created : Time
  Updated : Time
  LastJob : Time
  Tokens : Int
  deriving DecidableEq, Repr

/-- The type `Users`, a slice of `User`. -/
abbrev Users := List User

/-- Modelled from the spec: the timestamp wrapper of package `responses` behind
the pointers `u.Created`, `u.Updated` and `u.LastJob`; `ListUsers` reads its
embedded `Time`. -/
structure JSONTime where
  Time : Time
  deriving DecidableEq, Repr

/-- Modelled from the spec: the element type of `responses.ListUsersResponse`,
with the fields `ListUsers` reads.  The three timestamps are pointers, `nil`
when the server payload has no such member. -/
structure ListUsersEntry where
  Login : String
  FirstName : String
  LastName : String
  Email : String
  Created : Option JSONTime
  Updated : Option JSONTime
  LastJob : Option JSONTime
  deriving DecidableEq, Repr

/-- Modelled from the spec: `responses.ListUsersResponse`, a slice of entries in
server response order. -/
abbrev ListUsersResponse := List ListUsersEntry

/-- Modelled from the spec: `requests.UserInfo`, the body of a profile update. -/
structure UserInfo where
  FirstName : String
  LastName : String
  Email : String
  deriving DecidableEq, Repr

/-- The response models handed to the API version gate by the user operations. -/
inductive ResponseModel where
  | ListUsersResponse
  | UserProfileResponse
  deriving DecidableEq, Repr

/-! ## Transport -/

/-- The request options used in `user.go`. -/
inductive RequestOption where
  | requestJSON
  | requestExpects (code : Nat)
  | withBody (body : Bytes)
  deriving DecidableEq, Repr

/-- One call to the transport wrapper. -/
inductive HttpCall where
  | httpGet (path : String) (opts : List RequestOption)
  | httpPost (path : String) (opts : List RequestOption)
  deriving DecidableEq, Repr

/-- The calls made to the transport so far, oldest first. -/
abbrev History := List HttpCall

/-- Whether a call is a GET. -/
def HttpCall.isGet : HttpCall → Bool
  | .httpGet _ _ => true
  | .httpPost _ _ => false

/-- Whether a call is a POST. -/
def HttpCall.isPost : HttpCall → Bool
  | .httpGet _ _ => false
  | .httpPost _ _ => true

/-- The path of a call. -/
def HttpCall.path : HttpCall → String
  | .httpGet p _ => p
  | .httpPost p _ => p

/-- The methods of `*Client` that `user.go` calls and that live in other files:
the API version gate, which returns `nil` or an error for a response model, and
the two transport calls, whose answer may depend on every earlier call. -/
structure Client where
  checkRequiredAPIVersion : ResponseModel → Option GoError
  httpGet : History → String → List RequestOption → Except GoError Bytes
  httpPost : History → String → List RequestOption → Except GoError Bytes

/-- What `user.go` uses from outside the client: the package variable
`errDecoding`; `json.Unmarshal(res, &listusers)` into a
`responses.ListUsersResponse`; `json.Unmarshal(res, &user)` for a `user` of type
`*User`, a pointer-to-pointer target whose pointer `encoding/json` sets to `nil`
for the JSON literal `null`, hence the optional result; the bytes `json.Marshal`
yields for a `requests.UserInfo`; and the `ErrorFormat` of `multierror`. -/
structure Lib where
  errDecoding : GoError
  unmarshalListUsers : Bytes → Except GoError ListUsersResponse
  unmarshalUser : Bytes → Except GoError (Option User)
  encodeUserInfo : UserInfo → Bytes
  ErrorFormat : List GoError → String

/-- The flattening step of `multierror.Append` for one appended error: the
errors of a `*multierror.Error` are spliced in, any other error is added. -/
def multierror.flatten : GoError → List GoError
  | .multierror es => es
  | e => [e]

/-- The function `multierror.Append(err, errs...)`, giving the `Errors` of the
result: a `*multierror.Error` first argument is extended, any other first
argument becomes the first element of a fresh one. -/
def multierror.Append (err : GoError) (errs : List GoError) : List GoError :=
  match err with
  | .multierror es => es ++ errs.flatMap multierror.flatten
  | e => (e :: errs).flatMap multierror.flatten

/-- The method `Error()` of a `*multierror.Error` with the given `Errors`. -/
def multierror.Error (L : Lib) (es : List GoError) : String :=
  L.ErrorFormat es

/-- The function `json.Marshal` on a `requests.UserInfo`: a struct of three
strings always encodes, so the error is always `nil`. -/
def jsonMarshal (L : Lib) (v : UserInfo) : Except GoError Bytes :=
  .ok (L.encodeUserInfo v)

/-- The result of a call that may panic. -/
inductive Outcome (α : Type) where
  | returned (v : α)
  | panicked (msg : String)

/-- The message of the runtime panic on a nil pointer dereference. -/
def nilDereference : String :=
  "runtime error: invalid memory address or nil pointer dereference"

/-! ## `user.go` -/

/-- The options of every GET of `user.go`: `requestJSON(), requestExpects(200)`. -/
def getOptions : List RequestOption :=
  [RequestOption.requestJSON, RequestOption.requestExpects 200]

/-- The options of the POST of `ModifyUserProfile`:
`withBody(bytes.NewReader(postData)), requestJSON(), requestExpects(200)`. -/
def postOptions (postData : Bytes) : List RequestOption :=
  [RequestOption.withBody postData, RequestOption.requestJSON, RequestOption.requestExpects 200]

/-- The body of the loop of `ListUsers` for one entry `u`. -/
def ListUsers.convert (u : ListUsersEntry) : User :=
  let nu : User :=
    { Login := u.Login, FirstName := u.FirstName, LastName := u.LastName, Email := u.Email,
      Created := Time.zero, Updated := Time.zero, LastJob := Time.zero, Tokens := 0 }
  let nu := match u.Created with
    | some t => { nu with Created := t.Time }
    | none => nu
  let nu := match u.Updated with
    | some t => { nu with Updated := t.Time }
    | none => nu
  let nu := match u.LastJob with
    | some t => { nu with LastJob := t.Time }
    | none => nu
  nu

/-- The method `Client.ListUsers`. -/
def ListUsers (L : Lib) (c : Client) (h : History) :
    (Option Users × Option GoError) × History :=
  match c.checkRequiredAPIVersion .ListUsersResponse with
  | some err => ((none, some err), h)
  | none =>
    let users : Users := []
    let h1 := h ++ [HttpCall.httpGet "user/list" getOptions]
    match c.httpGet h "user/list" getOptions with
    | .error err => ((none, some err), h1)
    | .ok res =>
      match L.unmarshalListUsers res with
      | .error jsonErr =>
        ((none, some (.UnmarshalError
          (multierror.Error L (multierror.Append L.errDecoding [jsonErr])))), h1)
      | .ok listusers =>
        ((some (listusers.foldl (fun users u => users ++ [ListUsers.convert u]) users), none), h1)

/-- The method `Client.GetCurrentUserProfile`. -/
def GetCurrentUserProfile (L : Lib) (c : Client) (h : History) :
    (Option User × Option GoError) × History :=
  match c.checkRequiredAPIVersion .UserProfileResponse with
  | some err => ((none, some err), h)
  | none =>
    let h1 := h ++ [HttpCall.httpGet "user/info" getOptions]
    match c.httpGet h "user/info" getOptions with
    | .error err => ((none, some err), h1)
    | .ok res =>
      match L.unmarshalUser res with
      | .error jsonErr =>
        ((none, some (.UnmarshalError
          (multierror.Error L (multierror.Append L.errDecoding [jsonErr])))), h1)
      | .ok user => ((user, none), h1)

/-- The method `Client.GetUserProfile`. -/
def GetUserProfile (L : Lib) (c : Client) (login : String) (h : History) :
    (Option User × Option GoError) × History :=
  match c.checkRequiredAPIVersion .UserProfileResponse with
  | some err => ((none, some err), h)
  | none =>
    let h1 := h ++ [HttpCall.httpGet ("user/info/" ++ login) getOptions]
    match c.httpGet h ("user/info/" ++ login) getOptions with
    | .error err => ((none, some err), h1)
    | .ok res =>
      match L.unmarshalUser res with
      | .error jsonErr =>
        ((none, some (.UnmarshalError
          (multierror.Error L (multierror.Append L.errDecoding [jsonErr])))), h1)
      | .ok user => ((user, none), h1)

/-- The error `ModifyUserProfile` creates when the login is the text `nil`. -/
def validationError : GoError :=
  .errorString "must provide login and at least one field to update"

/-- The method `Client.ModifyUserProfile`; `u` is the pointer argument, `none`
when it is `nil`. -/
def ModifyUserProfile (L : Lib) (c : Client) (u : Option User) (h : History) :
    Outcome (Option User × Option GoError) × History :=
  match c.checkRequiredAPIVersion .UserProfileResponse with
  | some err => (.returned (none, some err), h)
  | none =>
    match GetCurrentUserProfile L c h with
    | ((_, some currentUserErr), h1) => (.returned (none, some currentUserErr), h1)
    | ((currentUser, none), h1) =>
      match u with
      | none => (.panicked nilDereference, h1)
      | some u =>
        if u.Login = "nil" then
          (.returned (none, some validationError), h1)
        else
          match currentUser with
          | none => (.panicked nilDereference, h1)
          | some currentUser =>
            let updatePath :=
              if currentUser.Login ≠ u.Login then "user/info/" ++ u.Login else "user/info"
            let newUser : UserInfo :=
              { FirstName := u.FirstName, LastName := u.LastName, Email := u.Email }
            match jsonMarshal L newUser with
            | .error postDataErr => (.returned (none, some postDataErr), h1)
            | .ok postData =>
              let h2 := h1 ++ [HttpCall.httpPost updatePath (postOptions postData)]
              match c.httpPost h1 updatePath (postOptions postData) with
              | .error resErr => (.returned (none, some resErr), h2)
              | .ok res =>
                match L.unmarshalUser res with
                | .error jsonErr =>
                  (.returned (none, some (.UnmarshalError
                    (multierror.Error L (multierror.Append L.errDecoding [jsonErr])))), h2)
                | .ok resUser => (.returned (resUser, none), h2)

/-! ## `list_system_acl_policies.go` -/

/-- Modelled from the spec: one ACL policy resource of the listing, with its
name, path, type and href. -/
structure ACLResource where
  Name : String
  Path : String
  Type_ : String
  Href : String
  deriving DecidableEq, Repr

/-- Modelled from the spec: the ACL policy collection `ListSystemACLPolicies`
returns, with the path and type shared by its resources. -/
structure ACLPolicies where
  Path : String
  Type_ : String
  Resources : List ACLResource
  deriving DecidableEq, Repr

/-- One call to the output formatter. -/
inductive FormatterCall where
  | SetHeaders (headers : List String)
  | AddRow (row : List String)
  | Draw
  deriving DecidableEq, Repr

/-- The row of an `AddRow` call, nothing for the other calls. -/
def FormatterCall.row? : FormatterCall → Option (List String)
  | .AddRow r => some r
  | _ => none

/-- What the command uses from package `cli`: the answer of
`cli.Client.ListSystemACLPolicies()`, and the error `cli.OutputFormatter.AddRow`
returns for a row after the formatter calls made so far (`none` for `nil`). -/
structure Cli where
  ListSystemACLPolicies : Except GoError ACLPolicies
  AddRow : List FormatterCall → List String → Option GoError

/-- The headers `listSystemACLPoliciesFunc` sets. -/
def listSystemACLPoliciesHeaders : List String :=
  ["Name", "Path", "Type", "HRef", "Parent", "Parent Type"]

/-- The `range` loop of `listSystemACLPoliciesFunc` over the resources still to
visit: it returns the first error of `AddRow`, or `nil` after the last resource,
with the formatter calls made. -/
def listSystemACLPoliciesLoop (w : Cli) (parent : String) (policies : ACLPolicies) :
    List ACLResource → List FormatterCall → Option GoError × List FormatterCall
  | [], t => (none, t)
  | p :: ps, t =>
    let row := [p.Name, p.Path, p.Type_, p.Href, parent, policies.Type_]
    match w.AddRow t row with
    | some err => (some err, t ++ [FormatterCall.AddRow row])
    | none => listSystemACLPoliciesLoop w parent policies ps (t ++ [FormatterCall.AddRow row])

/-- The function `listSystemACLPoliciesFunc`: the returned error and the calls
made to the output formatter, starting from the calls `t` made before. -/
def listSystemACLPoliciesFunc (w : Cli) (t : List FormatterCall) :
    Option GoError × List FormatterCall :=
  match w.ListSystemACLPolicies with
  | .error err => (some err, t)
  | .ok policies =>
    let t1 := t ++ [FormatterCall.SetHeaders listSystemACLPoliciesHeaders]
    let parent := if policies.Path ≠ "" then policies.Path else "/"
    match listSystemACLPoliciesLoop w parent policies policies.Resources t1 with
    | (some err, t2) => (some err, t2)
    | (none, t2) => (none, t2 ++ [FormatterCall.Draw])

/-! ## Sample clients and payloads

Concrete clients, library behaviours and payloads on which the statements below
are evaluated. -/

/-- The ASCII bytes of a text. -/
def bytesOf (s : String) : Bytes :=
  s.toList.map (fun ch => UInt8.ofNat ch.toNat)

/-- The response body `null`. -/
def nullBody : Bytes := bytesOf "null"

/-- A response body that is not JSON. -/
def brokenBody : Bytes := bytesOf "<html>"

/-- A profile body for the user `admin`. -/
def adminBody : Bytes :=
  bytesOf "\x7b\"login\":\"admin\",\"firstName\":\"Ada\"\x7d"

/-- A user list body with two entries. -/
def listBody : Bytes :=
  bytesOf
    "[\x7b\"login\":\"admin\"\x7d,\x7b\"login\":\"bob\",\"created\":\"2018-01-01T00:00:00Z\"\x7d]"

/-- The user decoded from `adminBody`. -/
def adminUser : User :=
  { Login := "admin", FirstName := "Ada", LastName := "", Email := "",
    Created := Time.zero, Updated := Time.zero, LastJob := Time.zero, Tokens := 0 }

/-- The entries decoded from `listBody`: the first has no timestamp, the second
has `created` only. -/
def sampleEntries : ListUsersResponse :=
  [ { Login := "admin", FirstName := "", LastName := "", Email := "",
      Created := none, Updated := none, LastJob := none },
    { Login := "bob", FirstName := "", LastName := "", Email := "",
      Created := some { Time := { sec := 63650361600, nsec := 0 } }, Updated := none,
      LastJob := none } ]

/-- A JSON parse error. -/
def parseError : GoError :=
  .foreign "*json.SyntaxError" "invalid character '<' looking for beginning of value"

/-- An error of the API version gate. -/
def versionError : GoError :=
  .foreign "VersionError" "requested API version is not supported"

/-- An error of the transport. -/
def transportError : GoError :=
  .foreign "TransportError" "connection refused"

/-- A library whose decoders know the sample bodies: `null` decodes to a `nil`
user pointer, as `encoding/json` sets a pointer target to `nil` for the JSON
literal `null`; `adminBody` and `listBody` decode to their values; every other
body is a parse error. -/
def sampleLib : Lib where
  errDecoding := .errorString "error decoding response"
  unmarshalListUsers := fun b => if b = listBody then .ok sampleEntries else .error parseError
  unmarshalUser := fun b =>
    if b = nullBody then .ok none
    else if b = adminBody then .ok (some adminUser)
    else .error parseError
  encodeUserInfo := fun v => bytesOf (v.FirstName ++ "," ++ v.LastName ++ "," ++ v.Email)
  ErrorFormat := fun es => toString es.length ++ " errors occurred"

/-- A client whose version gate rejects every response model. -/
def gatedClient : Client where
  checkRequiredAPIVersion := fun _ => some versionError
  httpGet := fun _ _ _ => .ok adminBody
  httpPost := fun _ _ _ => .ok adminBody

/-- A client in front of a server that answers every profile request with the
profile of `admin` and the list request with `listBody`. -/
def adminClient : Client where
  checkRequiredAPIVersion := fun _ => none
  httpGet := fun _ path _ => if path = "user/list" then .ok listBody else .ok adminBody
  httpPost := fun _ _ _ => .ok adminBody

/-- A client whose every transport call fails. -/
def offlineClient : Client where
  checkRequiredAPIVersion := fun _ => none
  httpGet := fun _ _ _ => .error transportError
  httpPost := fun _ _ _ => .error transportError

/-- A client whose GET works and whose POST fails. -/
def readOnlyClient : Client where
  checkRequiredAPIVersion := fun _ => none
  httpGet := fun _ _ _ => .ok adminBody
  httpPost := fun _ _ _ => .error transportError

/-- A client in front of a server that answers every request with a body that
is not JSON. -/
def brokenClient : Client where
  checkRequiredAPIVersion := fun _ => none
  httpGet := fun _ _ _ => .ok brokenBody
  httpPost := fun _ _ _ => .ok brokenBody

/-- A client whose GET returns the profile of `admin` and whose POST returns a
body that is not JSON. -/
def brokenPostClient : Client where
  checkRequiredAPIVersion := fun _ => none
  httpGet := fun _ _ _ => .ok adminBody
  httpPost := fun _ _ _ => .ok brokenBody

/-- A client in front of a server that answers every request with the body
`null`. -/
def nullClient : Client where
  checkRequiredAPIVersion := fun _ => none
  httpGet := fun _ _ _ => .ok nullBody
  httpPost := fun _ _ _ => .ok nullBody

/-- A user whose login is the text `nil` and whose other fields are empty. -/
def nilUser : User :=
  { Login := "nil", FirstName := "", LastName := "", Email := "",
    Created := Time.zero, Updated := Time.zero, LastJob := Time.zero, Tokens := 0 }

/-- A user other than `admin`, with a new e-mail address. -/
def bobUser : User :=
  { Login := "bob", FirstName := "", LastName := "", Email := "bob@example.org",
    Created := Time.zero, Updated := Time.zero, LastJob := Time.zero, Tokens := 0 }

/-- A user whose login is the text `nil` and who has a new e-mail address. -/
def nilUserWithEmail : User :=
  { Login := "nil", FirstName := "", LastName := "", Email := "nil@example.org",
    Created := Time.zero, Updated := Time.zero, LastJob := Time.zero, Tokens := 0 }

/-- A user whose login is unset and whose other fields are empty. -/
def emptyUser : User :=
  { Login := "", FirstName := "", LastName := "", Email := "",
    Created := Time.zero, Updated := Time.zero, LastJob := Time.zero, Tokens := 0 }

/-- A policy collection with an empty top-level path and two resources. -/
def rootPolicies : ACLPolicies :=
  { Path := "", Type_ := "directory",
    Resources :=
      [ { Name := "admin.aclpolicy", Path := "admin.aclpolicy", Type_ := "file",
          Href := "http://rundeck/api/14/system/acl/admin.aclpolicy" },
        { Name := "ops.aclpolicy", Path := "ops.aclpolicy", Type_ := "file",
          Href := "http://rundeck/api/14/system/acl/ops.aclpolicy" } ] }

/-- A policy collection with the top-level path `acls` and one resource. -/
def nestedPolicies : ACLPolicies :=
  { Path := "acls", Type_ := "directory",
    Resources :=
      [ { Name := "dev.aclpolicy", Path := "acls/dev.aclpolicy", Type_ := "file",
          Href := "http://rundeck/api/14/system/acl/acls/dev.aclpolicy" } ] }

/-- The error of a formatter that is given a row of the wrong width. -/
def rowWidthError : GoError :=
  .errorString "row width does not match the headers"

/-- A command-line world that lists `rootPolicies` and whose formatter accepts
the rows of six columns. -/
def rootCli : Cli where
  ListSystemACLPolicies := .ok rootPolicies
  AddRow := fun _ row => if row.length = 6 then none else some rowWidthError

/-- A command-line world that lists `nestedPolicies` and whose formatter accepts
the rows of six columns. -/
def nestedCli : Cli where
  ListSystemACLPolicies := .ok nestedPolicies
  AddRow := fun _ row => if row.length = 6 then none else some rowWidthError

/-! ## Theorems -/

/-- A fetch of the current user that returns no error has passed the version
gate. -/
theorem GetCurrentUserProfile_gate_of_ok (L : Lib) (c : Client) (h : History)
    (hf : (GetCurrentUserProfile L c h).1.2 = none) :
    c.checkRequiredAPIVersion .UserProfileResponse = none := by
  cases hv : c.checkRequiredAPIVersion .UserProfileResponse with
  | none => rfl
  | some e => simp [GetCurrentUserProfile, hv] at hf

/-- Past the version gate, the fetch of the current user makes exactly one
transport call, a GET of `user/info`. -/
theorem GetCurrentUserProfile_history (L : Lib) (c : Client) (h : History)
    (hv : c.checkRequiredAPIVersion .UserProfileResponse = none) :
    (GetCurrentUserProfile L c h).2 = h ++ [HttpCall.httpGet "user/info" getOptions] := by
  simp only [GetCurrentUserProfile, hv]
  split
  · rfl
  · split <;> rfl

/-- The run of `ModifyUserProfile` in terms of the result of its fetch of the
current user, past the version gate. -/
theorem ModifyUserProfile_of_fetch (L : Lib) (c : Client) (u : Option User) (h : History)
    (hv : c.checkRequiredAPIVersion .UserProfileResponse = none) :
    ModifyUserProfile L c u h =
      match GetCurrentUserProfile L c h with
      | ((_, some currentUserErr), h1) => (.returned (none, some currentUserErr), h1)
      | ((currentUser, none), h1) =>
        match u with
        | none => (.panicked nilDereference, h1)
        | some u =>
          if u.Login = "nil" then (.returned (none, some validationError), h1)
          else
            match currentUser with
            | none => (.panicked nilDereference, h1)
            | some currentUser =>
              let updatePath :=
                if currentUser.Login = u.Login then "user/info" else "user/info/" ++ u.Login
              let postData := L.encodeUserInfo
                { FirstName := u.FirstName, LastName := u.LastName, Email := u.Email }
              let h2 := h1 ++ [HttpCall.httpPost updatePath (postOptions postData)]
              match c.httpPost h1 updatePath (postOptions postData) with
              | .error resErr => (.returned (none, some resErr), h2)
              | .ok res =>
                match L.unmarshalUser res with
                | .error jsonErr =>
                  (.returned (none, some (.UnmarshalError
                    (multierror.Error L (multierror.Append L.errDecoding [jsonErr])))), h2)
                | .ok resUser => (.returned (resUser, none), h2) := by
  simp only [ModifyUserProfile, hv, jsonMarshal, ne_eq, ite_not]

/-- The run of `ModifyUserProfile` on a user whose login is not the text `nil`,
after a fetch that returned the current user `cu` without error. -/
theorem ModifyUserProfile_of_current (L : Lib) (c : Client) (u cu : User) (h : History)
    (hf : (GetCurrentUserProfile L c h).1 = (some cu, none)) (hl : u.Login ≠ "nil") :
    ModifyUserProfile L c (some u) h =
      match c.httpPost (h ++ [HttpCall.httpGet "user/info" getOptions])
          (if cu.Login = u.Login then "user/info" else "user/info/" ++ u.Login)
          (postOptions (L.encodeUserInfo
            { FirstName := u.FirstName, LastName := u.LastName, Email := u.Email })) with
      | .error resErr =>
        (.returned (none, some resErr),
          h ++ [HttpCall.httpGet "user/info" getOptions,
            HttpCall.httpPost
              (if cu.Login = u.Login then "user/info" else "user/info/" ++ u.Login)
              (postOptions (L.encodeUserInfo
                { FirstName := u.FirstName, LastName := u.LastName, Email := u.Email }))])
      | .ok res =>
        match L.unmarshalUser res with
        | .error jsonErr =>
          (.returned (none, some (.UnmarshalError
            (multierror.Error L (multierror.Append L.errDecoding [jsonErr])))),
            h ++ [HttpCall.httpGet "user/info" getOptions,
              HttpCall.httpPost
                (if cu.Login = u.Login then "user/info" else "user/info/" ++ u.Login)
                (postOptions (L.encodeUserInfo
                  { FirstName := u.FirstName, LastName := u.LastName, Email := u.Email }))])
        | .ok resUser =>
          (.returned (resUser, none),
            h ++ [HttpCall.httpGet "user/info" getOptions,
              HttpCall.httpPost
                (if cu.Login = u.Login then "user/info" else "user/info/" ++ u.Login)
                (postOptions (L.encodeUserInfo
                  { FirstName := u.FirstName, LastName := u.LastName, Email := u.Email }))]) := by
  have hv := GetCurrentUserProfile_gate_of_ok L c h (by rw [hf])
  have hh := GetCurrentUserProfile_history L c h hv
  rw [ModifyUserProfile_of_fetch L c (some u) h hv]
  have hg : GetCurrentUserProfile L c h =
      ((some cu, none), h ++ [HttpCall.httpGet "user/info" getOptions]) :=
    Prod.ext hf hh
  rw [hg]
  simp only [hl, if_false]
  cases c.httpPost (h ++ [HttpCall.httpGet "user/info" getOptions])
      (if cu.Login = u.Login then "user/info" else "user/info/" ++ u.Login)
      (postOptions (L.encodeUserInfo
        { FirstName := u.FirstName, LastName := u.LastName, Email := u.Email })) with
  | error e => simp
  | ok res => cases L.unmarshalUser res <;> simp

/-- The transport calls of `ModifyUserProfile` on a user whose login is not the
text `nil`, after a fetch that returned the current user `cu` without error. -/
theorem update_path_of_current (L : Lib) (c : Client) (u cu : User) (h : History)
    (hf : (GetCurrentUserProfile L c h).1 = (some cu, none)) (hl : u.Login ≠ "nil") :
    (ModifyUserProfile L c (some u) h).2 =
      h ++ [HttpCall.httpGet "user/info" getOptions,
        HttpCall.httpPost
          (if cu.Login = u.Login then "user/info" else "user/info/" ++ u.Login)
          (postOptions (L.encodeUserInfo
            { FirstName := u.FirstName, LastName := u.LastName, Email := u.Email }))] := by
  rw [ModifyUserProfile_of_current L c u cu h hf hl]
  split
  · rfl
  · split <;> rfl

/-- The loop of `ListUsers` appends the converted entries to the users built so
far, in order. -/
theorem ListUsers_loop (l : ListUsersResponse) (acc : Users) :
    l.foldl (fun users u => users ++ [ListUsers.convert u]) acc =
      acc ++ l.map ListUsers.convert := by
  induction l generalizing acc with
  | nil => simp
  | cons u us ih => simp [List.foldl_cons, ih]

/-- The run of `ListUsers` when the GET succeeds with a body that decodes to the
entries `r`. -/
theorem ListUsers_of_decoded (L : Lib) (c : Client) (h : History) (res : Bytes)
    (r : ListUsersResponse)
    (hv : c.checkRequiredAPIVersion .ListUsersResponse = none)
    (hg : c.httpGet h "user/list" getOptions = .ok res)
    (hd : L.unmarshalListUsers res = .ok r) :
    ListUsers L c h =
      ((some (r.map ListUsers.convert), none),
        h ++ [HttpCall.httpGet "user/list" getOptions]) := by
  simp [ListUsers, hv, hg, hd, ListUsers_loop]

/-- The rows of a run of `AddRow` calls are the rows given to them. -/
theorem filterMap_row_AddRow {α : Type} (f : α → List String) (l : List α) :
    (l.map fun p => FormatterCall.AddRow (f p)).filterMap FormatterCall.row? = l.map f := by
  induction l with
  | nil => rfl
  | cons a l ih => simp [FormatterCall.row?, ih]

/-- The loop of `listSystemACLPoliciesFunc` offers to `AddRow` the rows of a
leading part of the resources, in order, one row per resource, and it has
offered the rows of all of them when it returns a nil error. -/
theorem listSystemACLPoliciesLoop_calls (w : Cli) (parent : String) (policies : ACLPolicies)
    (rs : List ACLResource) (t : List FormatterCall) :
    ∃ k, k ≤ rs.length ∧
      (listSystemACLPoliciesLoop w parent policies rs t).2 =
        t ++ ((rs.take k).map fun p =>
          FormatterCall.AddRow [p.Name, p.Path, p.Type_, p.Href, parent, policies.Type_]) ∧
      ((listSystemACLPoliciesLoop w parent policies rs t).1 = none → k = rs.length) := by
  induction rs generalizing t with
  | nil => exact ⟨0, le_refl _, by simp [listSystemACLPoliciesLoop], fun _ => rfl⟩
  | cons p ps ih =>
    cases ha : w.AddRow t [p.Name, p.Path, p.Type_, p.Href, parent, policies.Type_] with
    | some err =>
      refine ⟨1, by simp, by simp [listSystemACLPoliciesLoop, ha], ?_⟩
      simp [listSystemACLPoliciesLoop, ha]
    | none =>
      obtain ⟨k, hk, hcalls, hall⟩ := ih
        (t ++ [FormatterCall.AddRow [p.Name, p.Path, p.Type_, p.Href, parent, policies.Type_]])
      refine ⟨k + 1, by simpa using hk, ?_, ?_⟩
      · simp [listSystemACLPoliciesLoop, ha, hcalls]
      · intro hn
        simp only [listSystemACLPoliciesLoop, ha] at hn
        simp [hall hn]

/-- The loop of `listSystemACLPoliciesFunc` returns a nil error when `AddRow`
accepts the row of every resource. -/
theorem listSystemACLPoliciesLoop_accepted (w : Cli) (parent : String)
    (policies : ACLPolicies) (rs : List ACLResource) (t : List FormatterCall)
    (hadd : ∀ t1, ∀ p ∈ rs,
      w.AddRow t1 [p.Name, p.Path, p.Type_, p.Href, parent, policies.Type_] = none) :
    (listSystemACLPoliciesLoop w parent policies rs t).1 = none := by
  induction rs generalizing t with
  | nil => rfl
  | cons p ps ih =>
    have ha := hadd t p (List.mem_cons_self p ps)
    simp only [listSystemACLPoliciesLoop, ha]
    exact ih _ fun t1 q hq => hadd t1 q (List.mem_cons_of_mem p hq)

/-- C1: for ListUsers, GetCurrentUserProfile, GetUserProfile and
ModifyUserProfile, on every client and from every history of transport calls:
when the API version check on the operation's response model returns an error,
the method returns a nil result with exactly that error, and the history of
transport calls is unchanged, so no `httpGet` and no `httpPost` was made. -/
theorem version_error_returned_without_http (L : Lib) (c : Client) (h : History)
    (e : GoError) :
    (c.checkRequiredAPIVersion .ListUsersResponse = some e →
      ListUsers L c h = ((none, some e), h)) ∧
    (c.checkRequiredAPIVersion .UserProfileResponse = some e →
      GetCurrentUserProfile L c h = ((none, some e), h) ∧
      (∀ login, GetUserProfile L c login h = ((none, some e), h)) ∧
      (∀ u, ModifyUserProfile L c u h = (.returned (none, some e), h))) := by
  refine ⟨fun hv => ?_, fun hv => ⟨?_, fun login => ?_, fun u => ?_⟩⟩
  · simp [ListUsers, hv]
  · simp [GetCurrentUserProfile, hv]
  · simp [GetUserProfile, hv]
  · simp [ModifyUserProfile, hv]

/-- Witness of C1 on the client whose version gate rejects every model, from a
history that already holds one call. -/
theorem version_error_returned_without_http_witness :
    ListUsers sampleLib gatedClient [HttpCall.httpGet "user/list" getOptions] =
      ((none, some versionError), [HttpCall.httpGet "user/list" getOptions]) ∧
    GetCurrentUserProfile sampleLib gatedClient [HttpCall.httpGet "user/list" getOptions] =
      ((none, some versionError), [HttpCall.httpGet "user/list" getOptions]) ∧
    GetUserProfile sampleLib gatedClient "bob" [HttpCall.httpGet "user/list" getOptions] =
      ((none, some versionError), [HttpCall.httpGet "user/list" getOptions]) ∧
    ModifyUserProfile sampleLib gatedClient (some bobUser)
        [HttpCall.httpGet "user/list" getOptions] =
      (.returned (none, some versionError), [HttpCall.httpGet "user/list" getOptions]) :=
  ⟨(version_error_returned_without_http sampleLib gatedClient
      [HttpCall.httpGet "user/list" getOptions] versionError).1 rfl,
    ((version_error_returned_without_http sampleLib gatedClient
      [HttpCall.httpGet "user/list" getOptions] versionError).2 rfl).1,
    ((version_error_returned_without_http sampleLib gatedClient
      [HttpCall.httpGet "user/list" getOptions] versionError).2 rfl).2.1 "bob",
    ((version_error_returned_without_http sampleLib gatedClient
      [HttpCall.httpGet "user/list" getOptions] versionError).2 rfl).2.2 (some bobUser)⟩

/-- C8: past the version gate, a transport call that fails with error `e` makes
the method return a nil result and exactly `e`, and it is the last transport
call of the run.  This holds for the GET of ListUsers, of GetCurrentUserProfile
and of GetUserProfile, for the GET of the current-user fetch of
ModifyUserProfile (no POST follows it), and for the POST of ModifyUserProfile. -/
theorem transport_error_returned_unchanged (L : Lib) (c : Client) (h : History)
    (e : GoError) :
    (c.checkRequiredAPIVersion .ListUsersResponse = none →
      c.httpGet h "user/list" getOptions = .error e →
      ListUsers L c h = ((none, some e), h ++ [HttpCall.httpGet "user/list" getOptions])) ∧
    (c.checkRequiredAPIVersion .UserProfileResponse = none →
      c.httpGet h "user/info" getOptions = .error e →
      GetCurrentUserProfile L c h =
        ((none, some e), h ++ [HttpCall.httpGet "user/info" getOptions]) ∧
      ∀ u, ModifyUserProfile L c u h =
        (.returned (none, some e), h ++ [HttpCall.httpGet "user/info" getOptions])) ∧
    (∀ login, c.checkRequiredAPIVersion .UserProfileResponse = none →
      c.httpGet h ("user/info/" ++ login) getOptions = .error e →
      GetUserProfile L c login h =
        ((none, some e), h ++ [HttpCall.httpGet ("user/info/" ++ login) getOptions])) ∧
    (∀ u cu : User, (GetCurrentUserProfile L c h).1 = (some cu, none) → u.Login ≠ "nil" →
      c.httpPost (h ++ [HttpCall.httpGet "user/info" getOptions])
        (if cu.Login = u.Login then "user/info" else "user/info/" ++ u.Login)
        (postOptions (L.encodeUserInfo
          { FirstName := u.FirstName, LastName := u.LastName, Email := u.Email })) = .error e →
      ModifyUserProfile L c (some u) h =
        (.returned (none, some e),
          h ++ [HttpCall.httpGet "user/info" getOptions,
            HttpCall.httpPost
              (if cu.Login = u.Login then "user/info" else "user/info/" ++ u.Login)
              (postOptions (L.encodeUserInfo
                { FirstName := u.FirstName, LastName := u.LastName, Email := u.Email }))])) := by
  refine ⟨fun hv hg => ?_, fun hv hg => ⟨?_, fun u => ?_⟩, fun login hv hg => ?_,
    fun u cu hf hl hp => ?_⟩
  · simp [ListUsers, hv, hg]
  · simp [GetCurrentUserProfile, hv, hg]
  · have hf : GetCurrentUserProfile L c h =
        ((none, some e), h ++ [HttpCall.httpGet "user/info" getOptions]) := by
      simp [GetCurrentUserProfile, hv, hg]
    rw [ModifyUserProfile_of_fetch L c u h hv, hf]
  · simp [GetUserProfile, hv, hg]
  · rw [ModifyUserProfile_of_current L c u cu h hf hl, hp]

/-- Witness of C8 on a client whose every transport call fails, and, for the
POST, on a client whose GET works and whose POST fails. -/
theorem transport_error_returned_unchanged_witness :
    ListUsers sampleLib offlineClient [] =
      ((none, some transportError), [HttpCall.httpGet "user/list" getOptions]) ∧
    GetCurrentUserProfile sampleLib offlineClient [] =
      ((none, some transportError), [HttpCall.httpGet "user/info" getOptions]) ∧
    ModifyUserProfile sampleLib offlineClient (some bobUser) [] =
      (.returned (none, some transportError), [HttpCall.httpGet "user/info" getOptions]) ∧
    GetUserProfile sampleLib offlineClient "bob" [] =
      ((none, some transportError), [HttpCall.httpGet "user/info/bob" getOptions]) ∧
    ModifyUserProfile sampleLib readOnlyClient (some bobUser) [] =
      (.returned (none, some transportError),
        [HttpCall.httpGet "user/info" getOptions,
          HttpCall.httpPost "user/info/bob" (postOptions (bytesOf ",,bob@example.org"))]) :=
  ⟨(transport_error_returned_unchanged sampleLib offlineClient [] transportError).1 rfl rfl,
    ((transport_error_returned_unchanged sampleLib offlineClient [] transportError).2.1
      rfl rfl).1,
    ((transport_error_returned_unchanged sampleLib offlineClient [] transportError).2.1
      rfl rfl).2 (some bobUser),
    (transport_error_returned_unchanged sampleLib offlineClient [] transportError).2.2.1
      "bob" rfl rfl,
    (transport_error_returned_unchanged sampleLib readOnlyClient [] transportError).2.2.2
      bobUser adminUser rfl (by decide) rfl⟩

/-- C4: on each decode path (ListUsers, GetCurrentUserProfile, GetUserProfile
and the POST response of ModifyUserProfile), when the transport call succeeds
with body `res` and `json.Unmarshal` of `res` fails with error `e`, the method
returns a nil result together with an `UnmarshalError` whose message is the
`Error()` text of `multierror.Append(errDecoding, e)`; the error is never nil
and the result never a decoded value. -/
theorem decode_failure_wrapped (L : Lib) (c : Client) (h : History) (res : Bytes)
    (e : GoError) :
    (c.checkRequiredAPIVersion .ListUsersResponse = none →
      c.httpGet h "user/list" getOptions = .ok res →
      L.unmarshalListUsers res = .error e →
      (ListUsers L c h).1 = (none, some (.UnmarshalError
        (multierror.Error L (multierror.Append L.errDecoding [e]))))) ∧
    (c.checkRequiredAPIVersion .UserProfileResponse = none →
      c.httpGet h "user/info" getOptions = .ok res →
      L.unmarshalUser res = .error e →
      (GetCurrentUserProfile L c h).1 = (none, some (.UnmarshalError
        (multierror.Error L (multierror.Append L.errDecoding [e]))))) ∧
    (∀ login, c.checkRequiredAPIVersion .UserProfileResponse = none →
      c.httpGet h ("user/info/" ++ login) getOptions = .ok res →
      L.unmarshalUser res = .error e →
      (GetUserProfile L c login h).1 = (none, some (.UnmarshalError
        (multierror.Error L (multierror.Append L.errDecoding [e]))))) ∧
    (∀ u cu : User, (GetCurrentUserProfile L c h).1 = (some cu, none) → u.Login ≠ "nil" →
      c.httpPost (h ++ [HttpCall.httpGet "user/info" getOptions])
        (if cu.Login = u.Login then "user/info" else "user/info/" ++ u.Login)
        (postOptions (L.encodeUserInfo
          { FirstName := u.FirstName, LastName := u.LastName, Email := u.Email })) = .ok res →
      L.unmarshalUser res = .error e →
      (ModifyUserProfile L c (some u) h).1 = .returned (none, some (.UnmarshalError
        (multierror.Error L (multierror.Append L.errDecoding [e]))))) := by
  refine ⟨fun hv hg hd => ?_, fun hv hg hd => ?_, fun login hv hg hd => ?_,
    fun u cu hf hl hp hd => ?_⟩
  · simp [ListUsers, hv, hg, hd]
  · simp [GetCurrentUserProfile, hv, hg, hd]
  · simp [GetUserProfile, hv, hg, hd]
  · rw [ModifyUserProfile_of_current L c u cu h hf hl, hp]
    simp [hd]

/-- Witness of C4 on a server whose bodies are not JSON: the three GET paths on
`brokenClient`, the POST path on `brokenPostClient`.  The aggregated `Errors`
are the decoding error followed by the parse error. -/
theorem decode_failure_wrapped_witness :
    multierror.Append sampleLib.errDecoding [parseError] =
      [GoError.errorString "error decoding response", parseError] ∧
    (ListUsers sampleLib brokenClient []).1 = (none, some (.UnmarshalError
      (multierror.Error sampleLib (multierror.Append sampleLib.errDecoding [parseError])))) ∧
    (GetCurrentUserProfile sampleLib brokenClient []).1 = (none, some (.UnmarshalError
      (multierror.Error sampleLib (multierror.Append sampleLib.errDecoding [parseError])))) ∧
    (GetUserProfile sampleLib brokenClient "bob" []).1 = (none, some (.UnmarshalError
      (multierror.Error sampleLib (multierror.Append sampleLib.errDecoding [parseError])))) ∧
    (ModifyUserProfile sampleLib brokenPostClient (some bobUser) []).1 =
      .returned (none, some (.UnmarshalError
        (multierror.Error sampleLib (multierror.Append sampleLib.errDecoding [parseError])))) :=
  ⟨rfl,
    (decode_failure_wrapped sampleLib brokenClient [] brokenBody parseError).1 rfl rfl rfl,
    (decode_failure_wrapped sampleLib brokenClient [] brokenBody parseError).2.1 rfl rfl rfl,
    (decode_failure_wrapped sampleLib brokenClient [] brokenBody parseError).2.2.1
      "bob" rfl rfl rfl,
    (decode_failure_wrapped sampleLib brokenPostClient [] brokenBody parseError).2.2.2
      bobUser adminUser rfl (by decide) rfl rfl⟩

/-- C3: for every user `u` whose login is not the text `nil`, when the version
check passes and the current-user fetch returns the user `cu` without error,
ModifyUserProfile makes exactly two transport calls, the GET of the fetch and
then one POST; the POST goes to `user/info` when `cu.Login = u.Login` and to
`user/info/` followed by `u.Login` otherwise. -/
theorem update_path_self_or_admin (L : Lib) (c : Client) (u cu : User) (h : History)
    (hl : u.Login ≠ "nil")
    (_hv : c.checkRequiredAPIVersion .UserProfileResponse = none)
    (hf : (GetCurrentUserProfile L c h).1 = (some cu, none)) :
    (ModifyUserProfile L c (some u) h).2 =
      h ++ [HttpCall.httpGet "user/info" getOptions,
        HttpCall.httpPost
          (if cu.Login = u.Login then "user/info" else "user/info/" ++ u.Login)
          (postOptions (L.encodeUserInfo
            { FirstName := u.FirstName, LastName := u.LastName, Email := u.Email }))] ∧
    ((ModifyUserProfile L c (some u) h).2.drop h.length).filter HttpCall.isPost =
      [HttpCall.httpPost
        (if cu.Login = u.Login then "user/info" else "user/info/" ++ u.Login)
        (postOptions (L.encodeUserInfo
          { FirstName := u.FirstName, LastName := u.LastName, Email := u.Email }))] := by
  have key := update_path_of_current L c u cu h hf hl
  refine ⟨key, ?_⟩
  rw [key, List.drop_left]
  simp [HttpCall.isPost, HttpCall.isGet]

/-- Witness of C3 on the server that knows `admin` as the current user: the
update of `bob` goes to the admin-scoped path, the update of `admin` to the
self path. -/
theorem update_path_self_or_admin_witness :
    (ModifyUserProfile sampleLib adminClient (some bobUser) []).2 =
      [HttpCall.httpGet "user/info" getOptions,
        HttpCall.httpPost "user/info/bob" (postOptions (bytesOf ",,bob@example.org"))] ∧
    (ModifyUserProfile sampleLib adminClient (some adminUser) []).2 =
      [HttpCall.httpGet "user/info" getOptions,
        HttpCall.httpPost "user/info" (postOptions (bytesOf "Ada,,"))] :=
  ⟨(update_path_self_or_admin sampleLib adminClient bobUser adminUser []
      (by decide) rfl rfl).1,
    (update_path_self_or_admin sampleLib adminClient adminUser adminUser []
      (by decide) rfl rfl).1⟩

/-- C2, counterexample: with the version check passing and a user whose login
is the text `nil` and whose other fields are empty, ModifyUserProfile does make
a network call, the GET of `user/info`, before it returns the validation error;
and when that call fails, the method returns the transport error and not the
validation error. -/
theorem nil_login_validation_after_get :
    adminClient.checkRequiredAPIVersion .UserProfileResponse = none ∧
    offlineClient.checkRequiredAPIVersion .UserProfileResponse = none ∧
    nilUser.Login = "nil" ∧ nilUser.FirstName = "" ∧ nilUser.LastName = "" ∧
    nilUser.Email = "" ∧
    ModifyUserProfile sampleLib adminClient (some nilUser) [] =
      (.returned (none, some validationError), [HttpCall.httpGet "user/info" getOptions]) ∧
    (ModifyUserProfile sampleLib adminClient (some nilUser) []).2.filter HttpCall.isGet ≠ [] ∧
    ModifyUserProfile sampleLib offlineClient (some nilUser) [] =
      (.returned (none, some transportError), [HttpCall.httpGet "user/info" getOptions]) ∧
    (ModifyUserProfile sampleLib offlineClient (some nilUser) []).1 ≠
      .returned (none, some validationError) := by
  refine ⟨rfl, rfl, rfl, rfl, rfl, rfl, rfl, by decide, rfl, ?_⟩
  show Outcome.returned (none, some transportError) ≠ _
  simp [transportError, validationError]

/-- C2, amended: for every client whose version check passes and every user
`u` whose login is the text `nil` and whose FirstName, LastName and Email are
empty, ModifyUserProfile makes exactly one transport call, the GET of
`user/info` that fetches the current user, and no POST; when that fetch returns
no error the method fails with the validation error, and when the fetch returns
an error the method returns that error. -/
theorem nil_login_rejected_after_fetch (L : Lib) (c : Client) (u : User) (h : History)
    (hv : c.checkRequiredAPIVersion .UserProfileResponse = none)
    (hl : u.Login = "nil") (_hfn : u.FirstName = "") (_hln : u.LastName = "")
    (_hem : u.Email = "") :
    (ModifyUserProfile L c (some u) h).2 = h ++ [HttpCall.httpGet "user/info" getOptions] ∧
    ((GetCurrentUserProfile L c h).1.2 = none →
      (ModifyUserProfile L c (some u) h).1 = .returned (none, some validationError)) ∧
    (∀ e, (GetCurrentUserProfile L c h).1.2 = some e →
      (ModifyUserProfile L c (some u) h).1 = .returned (none, some e)) := by
  have hh := GetCurrentUserProfile_history L c h hv
  rw [ModifyUserProfile_of_fetch L c (some u) h hv]
  rcases hg : GetCurrentUserProfile L c h with ⟨⟨cur, err⟩, h1⟩
  rw [hg] at hh
  simp only at hh
  subst hh
  cases err with
  | none => simp [hl]
  | some e => simp

/-- Witness of C2 as amended, on the server that answers the fetch. -/
theorem nil_login_rejected_after_fetch_witness :
    (ModifyUserProfile sampleLib adminClient (some nilUser) []).2 =
      [HttpCall.httpGet "user/info" getOptions] ∧
    (ModifyUserProfile sampleLib adminClient (some nilUser) []).1 =
      .returned (none, some validationError) :=
  ⟨(nil_login_rejected_after_fetch sampleLib adminClient nilUser [] rfl rfl rfl rfl rfl).1,
    (nil_login_rejected_after_fetch sampleLib adminClient nilUser [] rfl rfl rfl rfl rfl).2.1
      rfl⟩

/-- C9: when the version check passes and the current-user fetch returns
without error (with current user pointer `cur`), ModifyUserProfile returns the
validation error, with the GET of the fetch as its only transport call, if and
only if `u.Login` is exactly the text `nil`, whatever FirstName, LastName and
Email are; and a user whose login is not `nil`, the empty login included, is
not rejected: with a current user `cu` the run goes on to exactly one POST. -/
theorem validation_iff_login_nil (L : Lib) (c : Client) (u : User) (cur : Option User)
    (h : History)
    (hv : c.checkRequiredAPIVersion .UserProfileResponse = none)
    (hf : (GetCurrentUserProfile L c h).1 = (cur, none)) :
    (ModifyUserProfile L c (some u) h =
        (.returned (none, some validationError),
          h ++ [HttpCall.httpGet "user/info" getOptions]) ↔ u.Login = "nil") ∧
    (∀ cu, cur = some cu → u.Login ≠ "nil" →
      ((ModifyUserProfile L c (some u) h).2.drop h.length).filter HttpCall.isPost =
        [HttpCall.httpPost
          (if cu.Login = u.Login then "user/info" else "user/info/" ++ u.Login)
          (postOptions (L.encodeUserInfo
            { FirstName := u.FirstName, LastName := u.LastName, Email := u.Email }))]) := by
  have hh := GetCurrentUserProfile_history L c h hv
  have hg : GetCurrentUserProfile L c h =
      ((cur, none), h ++ [HttpCall.httpGet "user/info" getOptions]) := Prod.ext hf hh
  refine ⟨⟨fun hm => ?_, fun hl => ?_⟩, fun cu hc hl => ?_⟩
  · by_contra hl
    cases cur with
    | none =>
      rw [ModifyUserProfile_of_fetch L c (some u) h hv, hg] at hm
      simp [hl] at hm
    | some cu =>
      have h2 := (update_path_of_current L c u cu h hf hl)
      rw [hm] at h2
      simp at h2
  · rw [ModifyUserProfile_of_fetch L c (some u) h hv, hg]
    simp [hl]
  · subst hc
    rw [update_path_of_current L c u cu h hf hl, List.drop_left]
    simp [HttpCall.isPost]

/-- Witness of C9 on the server that knows `admin` as the current user: a user
with login `nil` and an e-mail address is rejected, and a user with the empty
login and no fields is not rejected and is posted to `user/info/`. -/
theorem validation_iff_login_nil_witness :
    ModifyUserProfile sampleLib adminClient (some nilUserWithEmail) [] =
      (.returned (none, some validationError), [HttpCall.httpGet "user/info" getOptions]) ∧
    ((ModifyUserProfile sampleLib adminClient (some emptyUser) []).2.drop 0).filter
        HttpCall.isPost =
      [HttpCall.httpPost "user/info/" (postOptions (bytesOf ",,"))] :=
  ⟨(validation_iff_login_nil sampleLib adminClient nilUserWithEmail (some adminUser) []
      rfl rfl).1.2 rfl,
    (validation_iff_login_nil sampleLib adminClient emptyUser (some adminUser) []
      rfl rfl).2 adminUser rfl (by decide)⟩

/-- C10, the code at the failing input: when the server answers the GET of
`user/info` with a body that `json.Unmarshal` decodes, without error, to a
`nil` user pointer (the JSON literal `null` into the `**User` target),
GetCurrentUserProfile returns a nil user with a nil error, and ModifyUserProfile
on a user whose login is not the text `nil` panics on `currentUser.Login`. -/
theorem nil_current_user_on_null_body (L : Lib) (c : Client) (u : User) (h : History)
    (res : Bytes)
    (hv : c.checkRequiredAPIVersion .UserProfileResponse = none)
    (hg : c.httpGet h "user/info" getOptions = .ok res)
    (hd : L.unmarshalUser res = .ok none)
    (hl : u.Login ≠ "nil") :
    GetCurrentUserProfile L c h =
      ((none, none), h ++ [HttpCall.httpGet "user/info" getOptions]) ∧
    ModifyUserProfile L c (some u) h =
      (.panicked nilDereference, h ++ [HttpCall.httpGet "user/info" getOptions]) := by
  have hf : GetCurrentUserProfile L c h =
      ((none, none), h ++ [HttpCall.httpGet "user/info" getOptions]) := by
    simp [GetCurrentUserProfile, hv, hg, hd]
  refine ⟨hf, ?_⟩
  rw [ModifyUserProfile_of_fetch L c (some u) h hv, hf]
  simp [hl]

/-- Witness of C10 on the server that answers with the body `null`. -/
theorem nil_current_user_on_null_body_witness :
    nullBody = [110, 117, 108, 108] ∧
    GetCurrentUserProfile sampleLib nullClient [] =
      ((none, none), [HttpCall.httpGet "user/info" getOptions]) ∧
    ModifyUserProfile sampleLib nullClient (some bobUser) [] =
      (.panicked nilDereference, [HttpCall.httpGet "user/info" getOptions]) :=
  ⟨rfl,
    (nil_current_user_on_null_body sampleLib nullClient bobUser [] nullBody rfl rfl rfl
      (by decide)).1,
    (nil_current_user_on_null_body sampleLib nullClient bobUser [] nullBody rfl rfl rfl
      (by decide)).2⟩

/-- C5: when the version check passes, the GET succeeds and its body decodes
to the entries `r`, ListUsers returns a nil error and a collection `users` in
which, for every index `i` with entry `e`, the user at `i` has `Created` equal
to the zero time when `e.Created` is nil and to the time of `e.Created` when it
is present, and likewise, each on its own, `Updated` from `e.Updated` and
`LastJob` from `e.LastJob`. -/
theorem absent_timestamps_decode_to_zero (L : Lib) (c : Client) (h : History)
    (res : Bytes) (r : ListUsersResponse)
    (hv : c.checkRequiredAPIVersion .ListUsersResponse = none)
    (hg : c.httpGet h "user/list" getOptions = .ok res)
    (hd : L.unmarshalListUsers res = .ok r) :
    ∃ users : Users, (ListUsers L c h).1 = (some users, none) ∧
      ∀ (i : Nat) (e : ListUsersEntry), r[i]? = some e → ∃ nu : User, users[i]? = some nu ∧
        (e.Created = none → nu.Created = Time.zero) ∧
        (∀ t : JSONTime, e.Created = some t → nu.Created = t.Time) ∧
        (e.Updated = none → nu.Updated = Time.zero) ∧
        (∀ t : JSONTime, e.Updated = some t → nu.Updated = t.Time) ∧
        (e.LastJob = none → nu.LastJob = Time.zero) ∧
        (∀ t : JSONTime, e.LastJob = some t → nu.LastJob = t.Time) := by
  refine ⟨r.map ListUsers.convert, ?_, fun i e hi => ⟨ListUsers.convert e, ?_, ?_⟩⟩
  · rw [ListUsers_of_decoded L c h res r hv hg hd]
  · simp [List.getElem?_map, hi]
  · obtain ⟨lo, fn, ln, em, cr, up, lj⟩ := e
    cases cr <;> cases up <;> cases lj <;> simp [ListUsers.convert]

/-- Witness of C5 on the sample list, whose first entry has no timestamp and
whose second has `created` only. -/
theorem absent_timestamps_decode_to_zero_witness :
    ListUsers sampleLib adminClient [] =
      ((some
        [ { Login := "admin", FirstName := "", LastName := "", Email := "",
            Created := Time.zero, Updated := Time.zero, LastJob := Time.zero, Tokens := 0 },
          { Login := "bob", FirstName := "", LastName := "", Email := "",
            Created := { sec := 63650361600, nsec := 0 }, Updated := Time.zero,
            LastJob := Time.zero, Tokens := 0 } ], none),
        [HttpCall.httpGet "user/list" getOptions]) ∧
    ∃ users : Users, (ListUsers sampleLib adminClient []).1 = (some users, none) ∧
      ∀ (i : Nat) (e : ListUsersEntry), sampleEntries[i]? = some e →
        ∃ nu : User, users[i]? = some nu ∧
        (e.Created = none → nu.Created = Time.zero) ∧
        (∀ t : JSONTime, e.Created = some t → nu.Created = t.Time) ∧
        (e.Updated = none → nu.Updated = Time.zero) ∧
        (∀ t : JSONTime, e.Updated = some t → nu.Updated = t.Time) ∧
        (e.LastJob = none → nu.LastJob = Time.zero) ∧
        (∀ t : JSONTime, e.LastJob = some t → nu.LastJob = t.Time) :=
  ⟨rfl,
    absent_timestamps_decode_to_zero sampleLib adminClient [] listBody sampleEntries
      rfl rfl rfl⟩

/-- C6: when the version check passes, the GET succeeds and its body decodes
to the entries `r`, ListUsers returns a nil error and a collection `users` of
the same length as `r` whose element at every index `i` has the Login,
FirstName, LastName and Email of `r[i]`; an empty `r` gives the empty, non-nil
collection. -/
theorem users_in_server_order (L : Lib) (c : Client) (h : History)
    (res : Bytes) (r : ListUsersResponse)
    (hv : c.checkRequiredAPIVersion .ListUsersResponse = none)
    (hg : c.httpGet h "user/list" getOptions = .ok res)
    (hd : L.unmarshalListUsers res = .ok r) :
    ∃ users : Users, (ListUsers L c h).1 = (some users, none) ∧
      users.length = r.length ∧
      (∀ (i : Nat) (e : ListUsersEntry), r[i]? = some e → ∃ nu : User, users[i]? = some nu ∧
        nu.Login = e.Login ∧ nu.FirstName = e.FirstName ∧ nu.LastName = e.LastName ∧
        nu.Email = e.Email) ∧
      (r = [] → users = []) := by
  refine ⟨r.map ListUsers.convert, ?_, by simp, fun i e hi => ⟨ListUsers.convert e, ?_, ?_⟩,
    fun hr => by simp [hr]⟩
  · rw [ListUsers_of_decoded L c h res r hv hg hd]
  · simp [List.getElem?_map, hi]
  · obtain ⟨lo, fn, ln, em, cr, up, lj⟩ := e
    cases cr <;> cases up <;> cases lj <;> simp [ListUsers.convert]

/-- Witness of C6 on the sample list of two entries. -/
theorem users_in_server_order_witness :
    ((ListUsers sampleLib adminClient []).1.1.map fun users => users.map User.Login) =
      some ["admin", "bob"] ∧
    ∃ users : Users, (ListUsers sampleLib adminClient []).1 = (some users, none) ∧
      users.length = sampleEntries.length ∧
      (∀ (i : Nat) (e : ListUsersEntry), sampleEntries[i]? = some e →
        ∃ nu : User, users[i]? = some nu ∧
        nu.Login = e.Login ∧ nu.FirstName = e.FirstName ∧ nu.LastName = e.LastName ∧
        nu.Email = e.Email) ∧
      (sampleEntries = [] → users = []) :=
  ⟨rfl, users_in_server_order sampleLib adminClient [] listBody sampleEntries rfl rfl rfl⟩

/-- C7: for every policy collection `policies` that ListSystemACLPolicies
returns, listSystemACLPoliciesFunc offers to `AddRow` one row per resource, in
resource order and up to the first row that `AddRow` refuses; when `AddRow`
accepts the rows the function sets the headers, adds exactly one row per
resource in resource order, draws and returns nil.  In every row the fifth
column, "Parent", is `/` when `policies.Path` is empty and `policies.Path`
otherwise, the same for all rows, and the sixth, "Parent Type", is
`policies.Type`. -/
theorem parent_column_of_every_row (w : Cli) (policies : ACLPolicies)
    (t : List FormatterCall) (hp : w.ListSystemACLPolicies = .ok policies) :
    ((∀ t1, ∀ p ∈ policies.Resources,
        w.AddRow t1 [p.Name, p.Path, p.Type_, p.Href,
          if policies.Path = "" then "/" else policies.Path, policies.Type_] = none) →
      listSystemACLPoliciesFunc w t =
        (none, t ++ [FormatterCall.SetHeaders listSystemACLPoliciesHeaders] ++
          (policies.Resources.map fun p =>
            FormatterCall.AddRow [p.Name, p.Path, p.Type_, p.Href,
              if policies.Path = "" then "/" else policies.Path, policies.Type_]) ++
          [FormatterCall.Draw])) ∧
    (∃ k, k ≤ policies.Resources.length ∧
      (listSystemACLPoliciesFunc w t).2.filterMap FormatterCall.row? =
        t.filterMap FormatterCall.row? ++
          ((policies.Resources.take k).map fun p =>
            [p.Name, p.Path, p.Type_, p.Href,
              if policies.Path = "" then "/" else policies.Path, policies.Type_]) ∧
      ((listSystemACLPoliciesFunc w t).1 = none → k = policies.Resources.length)) ∧
    (listSystemACLPoliciesHeaders[4]? = some "Parent" ∧
      listSystemACLPoliciesHeaders[5]? = some "Parent Type") ∧
    (∀ p : ACLResource,
      [p.Name, p.Path, p.Type_, p.Href,
          if policies.Path = "" then "/" else policies.Path, policies.Type_][4]? =
        some (if policies.Path = "" then "/" else policies.Path) ∧
      [p.Name, p.Path, p.Type_, p.Href,
          if policies.Path = "" then "/" else policies.Path, policies.Type_][5]? =
        some policies.Type_) := by
  have hparent : (if policies.Path ≠ "" then policies.Path else "/") =
      (if policies.Path = "" then "/" else policies.Path) := by
    simp only [ne_eq, ite_not]
  obtain ⟨k, hk, hcalls, hall⟩ := listSystemACLPoliciesLoop_calls w
    (if policies.Path = "" then "/" else policies.Path) policies policies.Resources
    (t ++ [FormatterCall.SetHeaders listSystemACLPoliciesHeaders])
  refine ⟨fun hadd => ?_, ⟨k, hk, ?_, ?_⟩, ⟨rfl, rfl⟩, fun p => ⟨rfl, rfl⟩⟩
  · have hok := listSystemACLPoliciesLoop_accepted w
      (if policies.Path = "" then "/" else policies.Path) policies policies.Resources
      (t ++ [FormatterCall.SetHeaders listSystemACLPoliciesHeaders]) hadd
    have hk2 := hall hok
    subst hk2
    rw [List.take_length] at hcalls
    simp only [listSystemACLPoliciesFunc, hp, hparent]
    split
    · rename_i err t2 heq
      rw [heq] at hok
      simp at hok
    · rename_i t2 heq
      rw [heq] at hcalls
      simp only at hcalls
      rw [hcalls]
  · simp only [listSystemACLPoliciesFunc, hp, hparent]
    split
    · rename_i err t2 heq
      rw [heq] at hcalls
      simp only at hcalls
      rw [hcalls, List.filterMap_append, List.filterMap_append,
        filterMap_row_AddRow (fun p : ACLResource => [p.Name, p.Path, p.Type_, p.Href,
          if policies.Path = "" then "/" else policies.Path, policies.Type_])]
      simp [FormatterCall.row?]
    · rename_i t2 heq
      rw [heq] at hcalls
      simp only at hcalls
      rw [hcalls, List.filterMap_append, List.filterMap_append,
        filterMap_row_AddRow (fun p : ACLResource => [p.Name, p.Path, p.Type_, p.Href,
          if policies.Path = "" then "/" else policies.Path, policies.Type_])]
      simp [FormatterCall.row?]
  · intro hn
    apply hall
    simp only [listSystemACLPoliciesFunc, hp, hparent] at hn
    split at hn
    · simp at hn
    · rename_i t2 heq
      rw [heq]

/-- Witness of C7 on a collection with an empty top-level path, whose two rows
get the parent `/`, and on a collection with the path `acls`, whose row gets
the parent `acls`. -/
theorem parent_column_of_every_row_witness :
    listSystemACLPoliciesFunc rootCli [] =
      (none,
        [FormatterCall.SetHeaders ["Name", "Path", "Type", "HRef", "Parent", "Parent Type"],
          FormatterCall.AddRow ["admin.aclpolicy", "admin.aclpolicy", "file",
            "http://rundeck/api/14/system/acl/admin.aclpolicy", "/", "directory"],
          FormatterCall.AddRow ["ops.aclpolicy", "ops.aclpolicy", "file",
            "http://rundeck/api/14/system/acl/ops.aclpolicy", "/", "directory"],
          FormatterCall.Draw]) ∧
    listSystemACLPoliciesFunc nestedCli [] =
      (none,
        [FormatterCall.SetHeaders ["Name", "Path", "Type", "HRef", "Parent", "Parent Type"],
          FormatterCall.AddRow ["dev.aclpolicy", "acls/dev.aclpolicy", "file",
            "http://rundeck/api/14/system/acl/acls/dev.aclpolicy", "acls", "directory"],
          FormatterCall.Draw]) :=
  ⟨(parent_column_of_every_row rootCli rootPolicies [] rfl).1 fun _ p hmem => by
      simp only [rootPolicies, List.mem_cons, List.mem_singleton, List.not_mem_nil,
        or_false] at hmem
      rcases hmem with rfl | rfl <;> rfl,
    (parent_column_of_every_row nestedCli nestedPolicies [] rfl).1 fun _ p hmem => by
      simp only [nestedPolicies, List.mem_singleton] at hmem
      subst hmem
      rfl⟩

end Rundeck
